import Mathlib

/-!
Shallow embedding of the tic-tac-toe state-transition core from
`src/App.tsx` / `gameSlice` (Lee-Scott/tic-tac-toe-react), together with
proofs of the specification's claims about it.

TypeScript `SquareValue = 'X' | 'O' | null` becomes `Option Player`;
boards are `List SquareValue` indexed as JS arrays: `squares[i]` on an
in-range index is `List.getD i none` (JS `undefined` for an out-of-range
read is falsy exactly as `none` is), and reads that would throw in JS
(`history[currentMove].squares` out of range) are modelled with `Option`.
-/

inductive Player where
  | X : Player
  | O : Player
deriving DecidableEq, Repr

/-- `SquareValue = 'X' | 'O' | null` -/
abbrev SquareValue : Type := Option Player

/-- `interface MoveHistory { squares: SquareValue[]; position?: number }` -/
structure MoveHistory where
  squares : List SquareValue
  position : Option Nat
deriving DecidableEq

/-- The 8 winning lines of `calculateWinner` (App.tsx lines 260-269 and
gameSlice lines 581-590), in source enumeration order. -/
def lines : List (Nat × Nat × Nat) :=
  [(0, 1, 2), (3, 4, 5), (6, 7, 8),
   (0, 3, 6), (1, 4, 7), (2, 5, 8),
   (0, 4, 8), (2, 4, 6)]

/-- The `for` loop of `calculateWinner`: scan the line list in order and
return `squares[a]` at the first line whose three cells hold the same
non-null value; `none` when the loop falls through. -/
def checkLines (squares : List SquareValue) : List (Nat × Nat × Nat) → SquareValue
  | [] => none
  | (a, b, c) :: rest =>
    if squares.getD a none ≠ none ∧ squares.getD a none = squares.getD b none ∧
        squares.getD a none = squares.getD c none then
      squares.getD a none
    else
      checkLines squares rest

/-- `calculateWinner` from App.tsx lines 258-282 (identical copy in
gameSlice lines 579-603). -/
def calculateWinner (squares : List SquareValue) : SquareValue :=
  checkLines squares lines

/-- A line `(a,b,c)` holds three identical non-Empty marks `m`. -/
def allSame (squares : List SquareValue) (t : Nat × Nat × Nat) (m : Player) : Prop :=
  squares.getD t.1 none = some m ∧ squares.getD t.2.1 none = some m ∧
    squares.getD t.2.2 none = some m

instance (squares : List SquareValue) (t : Nat × Nat × Nat) (m : Player) :
    Decidable (allSame squares t m) := by
  unfold allSame
  infer_instance

lemma checkLines_eq_none (squares : List SquareValue) :
    ∀ ls : List (Nat × Nat × Nat), (∀ t ∈ ls, ∀ m : Player, ¬ allSame squares t m) →
      checkLines squares ls = none := by
  intro ls
  induction ls with
  | nil => intro _; rfl
  | cons hd tl ih =>
    obtain ⟨a, b, c⟩ := hd
    intro hno
    have hhead : ¬ (squares.getD a none ≠ none ∧ squares.getD a none = squares.getD b none ∧
        squares.getD a none = squares.getD c none) := by
      rintro ⟨hne, hab, hac⟩
      obtain ⟨m, hm⟩ := Option.ne_none_iff_exists'.mp hne
      exact hno (a, b, c) (List.mem_cons_self _ _) m ⟨hm, hab ▸ hm, hac ▸ hm⟩
    rw [checkLines, if_neg hhead]
    exact ih fun t ht m => hno t (List.mem_cons_of_mem _ ht) m

lemma checkLines_first (squares : List SquareValue) :
    ∀ (ls : List (Nat × Nat × Nat)) (i : Nat) (hi : i < ls.length) (m : Player),
      allSame squares (ls.get ⟨i, hi⟩) m →
      (∀ (j : Nat) (hj : j < ls.length), j < i → ∀ m2 : Player,
        ¬ allSame squares (ls.get ⟨j, hj⟩) m2) →
      checkLines squares ls = some m := by
  intro ls
  induction ls with
  | nil => intro i hi; exact absurd hi (Nat.not_lt_zero i)
  | cons hd tl ih =>
    intro i hi m hmatch hbefore
    obtain ⟨a, b, c⟩ := hd
    cases i with
    | zero =>
      have hmatch2 : allSame squares (a, b, c) m := hmatch
      obtain ⟨ha, hb, hc⟩ := hmatch2
      rw [checkLines, if_pos ⟨by rw [ha]; exact Option.some_ne_none m,
        by rw [ha, hb], by rw [ha, hc]⟩]
      exact ha
    | succ i =>
      have hhead : ¬ (squares.getD a none ≠ none ∧
          squares.getD a none = squares.getD b none ∧
          squares.getD a none = squares.getD c none) := by
        rintro ⟨hne, hab, hac⟩
        obtain ⟨m2, hm2⟩ := Option.ne_none_iff_exists'.mp hne
        exact hbefore 0 (Nat.succ_pos _) (Nat.succ_pos i) m2 ⟨hm2, hab ▸ hm2, hac ▸ hm2⟩
      rw [checkLines, if_neg hhead]
      exact ih i (Nat.lt_of_succ_lt_succ hi) m hmatch
        (fun j hj hji m2 => hbefore (j + 1) (Nat.succ_lt_succ hj) (Nat.succ_lt_succ hji) m2)

/-- C1: for every 9-cell board, if some line of the 8 holds three identical
non-Empty marks, `calculateWinner` returns the mark of the first such line
in enumeration order; if no line does, it returns `none`. -/
theorem calculateWinner_spec (squares : List SquareValue) (hlen : squares.length = 9) :
    (∀ (i : Nat) (hi : i < lines.length) (m : Player),
      allSame squares (lines.get ⟨i, hi⟩) m →
      (∀ (j : Nat) (hj : j < lines.length), j < i → ∀ m2 : Player,
        ¬ allSame squares (lines.get ⟨j, hj⟩) m2) →
      calculateWinner squares = some m) ∧
    ((∀ t ∈ lines, ∀ m : Player, ¬ allSame squares t m) → calculateWinner squares = none) := by
  constructor
  · intro i hi m hmatch hbefore
    exact checkLines_first squares lines i hi m hmatch hbefore
  · intro hno
    exact checkLines_eq_none squares lines hno

/-- Witness for C1: a board with X across the top row yields winner X. -/
theorem calculateWinner_spec_witness :
    calculateWinner [some Player.X, some Player.X, some Player.X,
      none, none, none, none, none, none] = some Player.X := by
  refine (calculateWinner_spec _ (by decide)).1 0 (by decide) Player.X (by decide) ?_
  intro j hj hj0 m2
  exact absurd hj0 (Nat.not_lt_zero j)

/-- `wins: { X: number, O: number }` -/
structure Wins where
  X : Nat
  O : Nat
deriving DecidableEq

/-- `GameState` from gameSlice lines 493-498; the four `useState` variables
of the Board component (App.tsx lines 38-44) form the same record. -/
structure GameState where
  history : List MoveHistory
  currentMove : Nat
  wins : Wins
  xStartsFirst : Bool
deriving DecidableEq

/-- The initial Move record `{ squares: Array(9).fill(null) }`. -/
def initialRecord : MoveHistory :=
  { squares := List.replicate 9 none, position := none }

/-- `initialState` from gameSlice lines 501-506. -/
def initialState : GameState :=
  { history := [initialRecord], currentMove := 0,
    wins := { X := 0, O := 0 }, xStartsFirst := true }

/-- `makeMove` reducer (gameSlice lines 514-523); `handlePlay` in the
useState Board (App.tsx lines 59-68) is the same update.  JS
`history.slice(0, currentMove + 1)` is `List.take (currentMove + 1)`. -/
def makeMove (s : GameState) (squares : List SquareValue) (position : Nat) : GameState :=
  let nextHistory := s.history.take (s.currentMove + 1) ++
    [{ squares := squares, position := some position }]
  { s with history := nextHistory, currentMove := nextHistory.length - 1 }

/-- `jumpToMove` reducer (gameSlice lines 526-528); `jumpTo` in the
useState Board (App.tsx lines 74-76) is the same update. -/
def jumpToMove (s : GameState) (idx : Nat) : GameState :=
  { s with currentMove := idx }

/-- `resetGame` reducer (gameSlice lines 531-534); `resetGame` in the
useState Board (App.tsx lines 97-100) is the same update. -/
def resetGame (s : GameState) : GameState :=
  { s with history := [initialRecord], currentMove := 0 }

/-- `playAgain` reducer (gameSlice lines 537-556): bump the winner's tally,
let the loser start next, then reset history; no-op on tally and flag when
`winner` is null. -/
def playAgain (s : GameState) (winner : SquareValue) : GameState :=
  let s1 :=
    match winner with
    | some Player.X =>
      { s with wins := { s.wins with X := s.wins.X + 1 }, xStartsFirst := false }
    | some Player.O =>
      { s with wins := { s.wins with O := s.wins.O + 1 }, xStartsFirst := true }
    | none => s
  { s1 with history := [initialRecord], currentMove := 0 }

/-- `selectCurrentSquares` (gameSlice lines 566-567):
`history[currentMove].squares`, which throws in JS when `currentMove` is
out of range — modelled as `none`. -/
def selectCurrentSquares (s : GameState) : Option (List SquareValue) :=
  (s.history.get? s.currentMove).map MoveHistory.squares

/-- `selectXIsNext` (gameSlice lines 570-573); identical to `xIsNext` in
the useState Board (App.tsx line 49). -/
def selectXIsNext (s : GameState) : Bool :=
  if s.xStartsFirst then s.currentMove % 2 == 0 else s.currentMove % 2 == 1

/-- The derived player to move: `xIsNext ? 'X' : 'O'` as written at the
click sites (App.tsx line 89, line 346). -/
def nextPlayer (s : GameState) : Player :=
  if selectXIsNext s then Player.X else Player.O

/-- C2: `playAgain` with winner X bumps the X tally by 1 and sets the
starting flag to false; with winner O bumps the O tally and sets the flag
to true; with winner null leaves tally and flag unchanged; in all cases it
resets history to the single initial record and the index to 0. -/
theorem playAgain_spec (s : GameState) :
    playAgain s (some Player.X) =
      { history := [initialRecord], currentMove := 0,
        wins := { X := s.wins.X + 1, O := s.wins.O }, xStartsFirst := false } ∧
    playAgain s (some Player.O) =
      { history := [initialRecord], currentMove := 0,
        wins := { X := s.wins.X, O := s.wins.O + 1 }, xStartsFirst := true } ∧
    playAgain s none =
      { history := [initialRecord], currentMove := 0,
        wins := s.wins, xStartsFirst := s.xStartsFirst } := by
  refine ⟨rfl, rfl, rfl⟩

/-- C4: the derived player to move is X when the flag is true and the index
even, O when the flag is true and the index odd, O when the flag is false
and the index even, X when the flag is false and the index odd. -/
theorem nextPlayer_spec (s : GameState) :
    nextPlayer s =
      if s.xStartsFirst then
        (if s.currentMove % 2 = 0 then Player.X else Player.O)
      else
        (if s.currentMove % 2 = 0 then Player.O else Player.X) := by
  unfold nextPlayer selectXIsNext
  rcases hf : s.xStartsFirst with _ | _ <;>
    rcases Nat.mod_two_eq_zero_or_one s.currentMove with h | h <;>
      simp [h]

/-- C10: `jumpToMove` performs no bounds check — for every index, in range
or not, it sets `currentMove` to exactly that index and leaves history,
tally and flag unchanged; the subsequent `history[currentMove]` read is in
bounds exactly when the index is below the history length. -/
theorem jumpToMove_spec (s : GameState) (idx : Nat) :
    (jumpToMove s idx).currentMove = idx ∧
    (jumpToMove s idx).history = s.history ∧
    (jumpToMove s idx).wins = s.wins ∧
    (jumpToMove s idx).xStartsFirst = s.xStartsFirst ∧
    (selectCurrentSquares (jumpToMove s idx) = none ↔ s.history.length ≤ idx) := by
  refine ⟨rfl, rfl, rfl, rfl, ?_⟩
  unfold selectCurrentSquares jumpToMove
  simp [List.get?_eq_none]

/-- `handleClick` of the Redux Board (App.tsx lines 339-349): read
`currentSquares` (throws — `none` — when `currentMove` is out of range),
return early when `currentSquares[i] !== null || winner` (the first
disjunct also fires for an out-of-range `i`, where JS reads `undefined`),
otherwise write the mover's mark at `i` and dispatch `makeMove`. -/
def handleClick (s : GameState) (i : Nat) : Option GameState :=
  (s.history.get? s.currentMove).map fun r =>
    if r.squares.get? i ≠ some none ∨ calculateWinner r.squares ≠ none then s
    else makeMove s (r.squares.set i (some (nextPlayer s))) i

lemma handleClick_of_legal (s : GameState) (p : Nat)
    (hcm : s.currentMove < s.history.length)
    (hcell : (s.history.get ⟨s.currentMove, hcm⟩).squares.get? p = some none)
    (hwin : calculateWinner (s.history.get ⟨s.currentMove, hcm⟩).squares = none) :
    handleClick s p = some (makeMove s
      ((s.history.get ⟨s.currentMove, hcm⟩).squares.set p (some (nextPlayer s))) p) := by
  have hguard : ¬ ((s.history.get ⟨s.currentMove, hcm⟩).squares.get? p ≠ some none ∨
      calculateWinner (s.history.get ⟨s.currentMove, hcm⟩).squares ≠ none) := by
    push_neg
    exact ⟨hcell, hwin⟩
  unfold handleClick
  rw [List.get?_eq_get hcm, Option.map_some', if_neg hguard]

/-- C5: a click at a legal position (current cell Empty, no winner yet)
succeeds and appends exactly one record: the new board equals the previous
current board except at cell `p`, which flips from Empty to the mover's
mark, and `currentMove` becomes the new history length minus 1. -/
theorem handleClick_move (s : GameState) (p : Nat)
    (hcm : s.currentMove < s.history.length)
    (hcell : (s.history.get ⟨s.currentMove, hcm⟩).squares.get? p = some none)
    (hwin : calculateWinner (s.history.get ⟨s.currentMove, hcm⟩).squares = none) :
    ∃ s2 : GameState, handleClick s p = some s2 ∧
      s2.history = s.history.take (s.currentMove + 1) ++
        [{ squares := (s.history.get ⟨s.currentMove, hcm⟩).squares.set p (some (nextPlayer s)),
           position := some p }] ∧
      s2.currentMove = s2.history.length - 1 ∧
      ((s.history.get ⟨s.currentMove, hcm⟩).squares.set p (some (nextPlayer s))).get? p =
        some (some (nextPlayer s)) ∧
      (∀ j : Nat, j ≠ p →
        ((s.history.get ⟨s.currentMove, hcm⟩).squares.set p (some (nextPlayer s))).get? j =
          (s.history.get ⟨s.currentMove, hcm⟩).squares.get? j) := by
  have hp : p < (s.history.get ⟨s.currentMove, hcm⟩).squares.length :=
    (List.get?_eq_some.mp hcell).1
  refine ⟨_, handleClick_of_legal s p hcm hcell hwin, rfl, ?_, ?_, ?_⟩
  · simp [makeMove]
  · exact List.get?_set_eq_of_lt _ hp
  · intro j hj
    exact List.get?_set_ne _ _ (fun h => hj h.symm)

/-- Witness for C5: clicking cell 0 of the initial state appends the board
with X at cell 0 and moves the index to 1. -/
theorem handleClick_move_witness :
    ∃ s2 : GameState, handleClick initialState 0 = some s2 ∧
      s2.history = initialState.history.take (initialState.currentMove + 1) ++
        [{ squares := (initialState.history.get
            ⟨initialState.currentMove, by decide⟩).squares.set 0
              (some (nextPlayer initialState)),
           position := some 0 }] ∧
      s2.currentMove = s2.history.length - 1 ∧
      ((initialState.history.get ⟨initialState.currentMove, by decide⟩).squares.set 0
          (some (nextPlayer initialState))).get? 0 = some (some (nextPlayer initialState)) ∧
      (∀ j : Nat, j ≠ 0 →
        ((initialState.history.get ⟨initialState.currentMove, by decide⟩).squares.set 0
            (some (nextPlayer initialState))).get? j =
          (initialState.history.get ⟨initialState.currentMove, by decide⟩).squares.get? j) :=
  handleClick_move initialState 0 (by decide) (by decide) (by decide)

/-- C3: jumping to index `k` and then making a legal move keeps exactly the
first `k + 1` old records, appends one new record, and sets the index to
`k + 1`; everything that was after index `k` is discarded. -/
theorem jumpTo_then_move (s : GameState) (k : Nat) (hk : k < s.history.length) (p : Nat)
    (hcell : (s.history.get ⟨k, hk⟩).squares.get? p = some none)
    (hwin : calculateWinner (s.history.get ⟨k, hk⟩).squares = none) :
    ∃ s2 : GameState, handleClick (jumpToMove s k) p = some s2 ∧
      s2.history = s.history.take (k + 1) ++
        [{ squares :=
            (s.history.get ⟨k, hk⟩).squares.set p (some (nextPlayer (jumpToMove s k))),
           position := some p }] ∧
      s2.history.length = k + 2 ∧
      s2.currentMove = k + 1 := by
  have hcm : (jumpToMove s k).currentMove < (jumpToMove s k).history.length := hk
  have hlen : (s.history.take (k + 1)).length = k + 1 := by
    rw [List.length_take]
    omega
  refine ⟨_, handleClick_of_legal (jumpToMove s k) p hcm hcell hwin, rfl, ?_, ?_⟩
  · simp [makeMove, jumpToMove, hlen]
  · simp [makeMove, jumpToMove, hlen]

/-- A concrete state reached after X's first click at cell 0, used as a
test vector below. -/
def oneMoveState : GameState :=
  { history := [initialRecord,
      { squares := (List.replicate 9 (none : SquareValue)).set 0 (some Player.X),
        position := some 0 }],
    currentMove := 1,
    wins := { X := 0, O := 0 },
    xStartsFirst := true }

/-- Witness for C3: on a two-record history, jumping back to index 0 and
clicking cell 1 truncates the second record away and appends one record. -/
theorem jumpTo_then_move_witness :
    ∃ s2 : GameState, handleClick (jumpToMove oneMoveState 0) 1 = some s2 ∧
      s2.history = oneMoveState.history.take (0 + 1) ++
        [{ squares := (oneMoveState.history.get ⟨0, by decide⟩).squares.set 1
            (some (nextPlayer (jumpToMove oneMoveState 0))),
           position := some 1 }] ∧
      s2.history.length = 0 + 2 ∧
      s2.currentMove = 0 + 1 :=
  jumpTo_then_move oneMoveState 0 (by decide) 1 (by decide) (by decide)

/-- C8: a click on a square that already holds a mark, or a click while the
current board has a winner, leaves the whole game state unchanged. -/
theorem handleClick_illegal (s : GameState) (p : Nat)
    (hcm : s.currentMove < s.history.length)
    (h : (s.history.get ⟨s.currentMove, hcm⟩).squares.getD p none ≠ none ∨
      calculateWinner (s.history.get ⟨s.currentMove, hcm⟩).squares ≠ none) :
    handleClick s p = some s := by
  have hguard : (s.history.get ⟨s.currentMove, hcm⟩).squares.get? p ≠ some none ∨
      calculateWinner (s.history.get ⟨s.currentMove, hcm⟩).squares ≠ none := by
    rcases h with h | h
    · left
      intro hcontra
      apply h
      rw [List.getD_eq_getD_get?, hcontra]
      rfl
    · right
      exact h
  unfold handleClick
  rw [List.get?_eq_get hcm, Option.map_some', if_pos hguard]

/-- Witness for C8: clicking the already-filled cell 0 after X's first move
is a no-op on the whole state. -/
theorem handleClick_illegal_witness :
    handleClick oneMoveState 0 = some oneMoveState :=
  handleClick_illegal oneMoveState 0 (by decide) (by decide)

/-- One request to the store: the four transition operations of the slice
(`makeMove`, `jumpToMove`, `resetGame`, `playAgain`) with their payloads. -/
inductive GameOp where
  | move (squares : List SquareValue) (position : Nat)
  | jump (idx : Nat)
  | reset
  | again (winner : SquareValue)

/-- Dispatch one operation to the store. -/
def applyOp (s : GameState) : GameOp → GameState
  | GameOp.move sq p => makeMove s sq p
  | GameOp.jump idx => jumpToMove s idx
  | GameOp.reset => resetGame s
  | GameOp.again w => playAgain s w

lemma applyOp_head (s : GameState) (op : GameOp)
    (h : s.history.head? = some initialRecord) :
    (applyOp s op).history.head? = some initialRecord := by
  cases op with
  | move sq p =>
    cases hh : s.history with
    | nil => rw [hh] at h; simp at h
    | cons a t =>
      rw [hh] at h
      simp only [List.head?_cons, Option.some_inj] at h
      simp [applyOp, makeMove, hh, h]
  | jump idx => exact h
  | reset => rfl
  | again w =>
    cases w with
    | none => rfl
    | some pl => cases pl <;> rfl

lemma foldl_applyOp_head :
    ∀ (ops : List GameOp) (s : GameState), s.history.head? = some initialRecord →
      ((ops.foldl applyOp s)).history.head? = some initialRecord := by
  intro ops
  induction ops with
  | nil => intro s h; exact h
  | cons op rest ih =>
    intro s h
    exact ih (applyOp s op) (applyOp_head s op h)

/-- C6: after any sequence of the four transition operations starting from
the initial state, history is non-empty and its first record is the
all-Empty board with no recorded position. -/
theorem history_head_invariant (ops : List GameOp) :
    (ops.foldl applyOp initialState).history ≠ [] ∧
    (ops.foldl applyOp initialState).history.head? =
      some { squares := List.replicate 9 none, position := none } := by
  have h := foldl_applyOp_head ops initialState rfl
  refine ⟨?_, h⟩
  intro hnil
  rw [hnil] at h
  simp at h

/-- The player label shown for history entry `moveIndex` in the move list
(App.tsx lines 153-155; identical in the Redux Board, lines 381-383). -/
def moveLabel (xStartsFirst : Bool) (moveIndex : Nat) : Player :=
  if xStartsFirst then
    (if moveIndex % 2 = 1 then Player.X else Player.O)
  else
    (if moveIndex % 2 = 1 then Player.O else Player.X)

/-- Counterexample for C7: with the starting flag true, the move producing
the board at history index 1 is made by X, not O — the move-list label for
entry 1 is X, and the click on the initial state (flag true) writes an X
into the board appended at index 1. -/
theorem moveParity_cex :
    moveLabel true 1 = Player.X ∧ Player.X ≠ Player.O ∧
    handleClick initialState 0 = some oneMoveState := by
  refine ⟨rfl, by decide, by decide⟩

/-- C7 amended: in a round with the starting flag true, the moves producing
the boards at odd history indices (1,3,5,7,9) are made by X and those at
even indices (2,4,6,8) by O: the move-list label of entry `k` is X exactly
when `k` is odd, and the player writing the board at index `k` (the player
to move at index `k - 1`) is X exactly when `k` is odd. -/
theorem moveParity_amended (k : Nat) (hk : 1 ≤ k) (s : GameState)
    (hflag : s.xStartsFirst = true) (hcm : s.currentMove = k - 1) :
    moveLabel true k = (if k % 2 = 1 then Player.X else Player.O) ∧
    nextPlayer s = (if k % 2 = 1 then Player.X else Player.O) := by
  unfold moveLabel nextPlayer selectXIsNext
  rw [hflag, hcm]
  rcases Nat.mod_two_eq_zero_or_one k with h | h
  · have h1 : (k - 1) % 2 = 1 := by omega
    simp [h, h1]
  · have h0 : (k - 1) % 2 = 0 := by omega
    simp [h, h0]

/-- Witness for the amended C7 at `k = 1` in the initial state. -/
theorem moveParity_amended_witness :
    moveLabel true 1 = (if 1 % 2 = 1 then Player.X else Player.O) ∧
    nextPlayer initialState = (if 1 % 2 = 1 then Player.X else Player.O) :=
  moveParity_amended 1 (by decide) initialState rfl rfl

/-- `handlePlay` from the useState Board (App.tsx lines 59-68), translated
separately from the Redux `makeMove` reducer. -/
def boardHandlePlay (s : GameState) (nextSquares : List SquareValue) (position : Nat) :
    GameState :=
  let nextHistory := s.history.take (s.currentMove + 1) ++
    [{ squares := nextSquares, position := some position }]
  { s with history := nextHistory, currentMove := nextHistory.length - 1 }

/-- `jumpTo` from the useState Board (App.tsx lines 74-76). -/
def boardJumpTo (s : GameState) (move : Nat) : GameState :=
  { s with currentMove := move }

/-- `resetGame` from the useState Board (App.tsx lines 97-100). -/
def boardResetGame (s : GameState) : GameState :=
  { s with
    history := [{ squares := List.replicate 9 none, position := none }],
    currentMove := 0 }

/-- `handleCLick` from the useState Board (App.tsx lines 82-92): same
guard, then write the mover's mark and call `handlePlay`. -/
def boardHandleCLick (s : GameState) (i : Nat) : Option GameState :=
  (s.history.get? s.currentMove).map fun r =>
    if r.squares.get? i ≠ some none ∨ calculateWinner r.squares ≠ none then s
    else boardHandlePlay s (r.squares.set i (some (nextPlayer s))) i

/-- `playAgain` from the useState Board (App.tsx lines 106-121): the
component reads `winner = calculateWinner(currentSquares)` (line 52), bumps
`wins[winner]` by the computed-key update, sets
`xStartsFirst = (winner === 'O')`, then performs `resetGame()`. -/
def boardPlayAgain (s : GameState) : Option GameState :=
  (s.history.get? s.currentMove).map fun r =>
    let winner := calculateWinner r.squares
    let s1 :=
      match winner with
      | some w =>
        { s with
          wins :=
            match w with
            | Player.X => { s.wins with X := s.wins.X + 1 }
            | Player.O => { s.wins with O := s.wins.O + 1 },
          xStartsFirst := w == Player.O }
      | none => s
    { s1 with
      history := [{ squares := List.replicate 9 none, position := none }],
      currentMove := 0 }

/-- The Redux Board's Play Again click (App.tsx line 460 with line 333):
dispatch `playAgain(calculateWinner(currentSquares))`. -/
def reduxPlayAgainClick (s : GameState) : Option GameState :=
  (s.history.get? s.currentMove).map fun r => playAgain s (calculateWinner r.squares)

/-- C9: the useState Board and the Redux slice define the same state
transitions — starting from equal states, corresponding operations with
equal arguments produce equal states. -/
theorem implementations_agree :
    (∀ (s : GameState) (sq : List SquareValue) (p : Nat),
      boardHandlePlay s sq p = makeMove s sq p) ∧
    (∀ (s : GameState) (k : Nat), boardJumpTo s k = jumpToMove s k) ∧
    (∀ s : GameState, boardResetGame s = resetGame s) ∧
    (∀ (s : GameState) (i : Nat), boardHandleCLick s i = handleClick s i) ∧
    (∀ s : GameState, boardPlayAgain s = reduxPlayAgainClick s) := by
  refine ⟨fun s sq p => rfl, fun s k => rfl, fun s => rfl, fun s i => rfl, fun s => ?_⟩
  unfold boardPlayAgain reduxPlayAgainClick
  congr 1
  funext r
  rcases hw : calculateWinner r.squares with _ | w
  · simp [hw, playAgain, initialRecord]
  · cases w <;> simp [hw, playAgain, initialRecord]
